import Mathlib

/-!
Verification of the marketplace-scraper extraction pipeline.

Shallow embedding of the two Selenium scrapers (`wb_selenium_scraper.py`,
`ozon_selenium_scraper.py`).  Page text is modelled as `List Char`; Python
floats arising from decimal price/rating text are modelled exactly as
rationals (`ℚ`); extractors that swallow exceptions and return a default are
modelled as total functions into `Option`; the DOM is abstracted to the
observations the code makes of it (element texts, attribute values,
visibility flags), while the per-string processing is translated from the
source.
-/

/-! ## Python string primitives -/

/-- Whitespace as recognised by Python `str.strip` and the regex class
`\s` (the characters that occur in practice: space, TAB, LF, VT, FF, CR,
NBSP). -/
def isPyWhitespace (c : Char) : Bool :=
  c.toNat = 32 || c.toNat = 9 || c.toNat = 10 || c.toNat = 11 ||
  c.toNat = 12 || c.toNat = 13 || c.toNat = 160

/-- Python `str.strip()`: drop whitespace from both ends. -/
def pyStrip (l : List Char) : List Char :=
  ((l.dropWhile isPyWhitespace).reverse.dropWhile isPyWhitespace).reverse

/-- Numeric value of a string of ASCII digits, in the way Python `int`
reads it. -/
def digitsToNat (l : List Char) : ℕ :=
  l.foldl (fun a c => 10 * a + (c.toNat - 48)) 0

/-- Exact value of the decimal literal `intPart.frac`, as parsed by Python
`float` (the parse is exact at this scale). -/
def decimalValue (intPart frac : List Char) : ℚ :=
  mkRat (digitsToNat (intPart ++ frac)) (10 ^ frac.length)

/-- Python `float(s)` on strings drawn from digits, at most one dot and
surrounding whitespace — the only shape reachable in this code after its
regex cleaning.  `none` models `ValueError`. -/
def pyFloat (cs : List Char) : Option ℚ :=
  let s := pyStrip cs
  let intPart := s.takeWhile Char.isDigit
  match s.dropWhile Char.isDigit with
  | [] => if intPart.isEmpty then none else some (decimalValue intPart [])
  | sep :: frac =>
      if sep = '.' then
        if frac.all Char.isDigit && !(intPart.isEmpty && frac.isEmpty) then
          some (decimalValue intPart frac)
        else none
      else none

/-- Python substring test `needle in hay`. -/
def containsSub (needle : List Char) : List Char → Bool
  | [] => needle.isEmpty
  | c :: rest => needle.isPrefixOf (c :: rest) || containsSub needle rest

/-- Python `str.lower()` on the alphabet this program compares against
(ASCII letters and the Russian alphabet). -/
def pyLowerChar (c : Char) : Char :=
  if 'A' ≤ c && c ≤ 'Z' then Char.ofNat (c.toNat + 32)
  else if 'А' ≤ c && c ≤ 'Я' then Char.ofNat (c.toNat + 32)
  else if c = 'Ё' then 'ё'
  else c

/-- Python `str.lower()` over a whole string. -/
def pyLower (l : List Char) : List Char := l.map pyLowerChar

/-! ## `extract_price_from_text` (wb_selenium_scraper.py 134-154) -/

/-- Character class kept by `re.sub(r'[^\d\s,.]', '', …)`. -/
def keptChar (c : Char) : Bool :=
  c.isDigit || isPyWhitespace c || c = ',' || c = '.'

/-- `extract_price_from_text`: strip, drop every character other than
digits/whitespace/comma/dot, remove spaces (thousands separators), turn the
comma into a dot, parse as float, and accept only values in the
plausibility band `[10, 1000000]`.  Any failure yields `None`. -/
def extract_price_from_text (text : List Char) : Option ℚ :=
  if text = [] then none
  else
    let clean1 := (pyStrip text).filter keptChar
    let clean2 := clean1.filter (fun c => c.toNat ≠ 32)
    let clean3 := clean2.map (fun c => if c = ',' then '.' else c)
    if clean3 ≠ [] then
      match pyFloat clean3 with
      | none => none
      | some price => if 10 ≤ price ∧ price ≤ 1000000 then some price else none
    else none

/-! ## Generic scan helpers shared by the fallback loops -/

/-- First `some` in a list of attempts (a `for` loop returning on the
first hit). -/
def firstSome {α : Type} : List (Option α) → Option α
  | [] => none
  | some a :: _ => some a
  | none :: rest => firstSome rest

/-- First Python-truthy rational in a list of attempts: a `for` loop with
`if price: return price`, where `None` and `0.0` are falsy. -/
def firstTruthy : List (Option ℚ) → Option ℚ
  | [] => none
  | some p :: rest => if p = 0 then firstTruthy rest else some p
  | none :: rest => firstTruthy rest

/-- Leftmost match of `re.search(r'(\d+)', …)`: the first maximal digit
run, as a number. -/
def findFirstNat : List Char → Option ℕ
  | [] => none
  | c :: rest =>
      if c.isDigit then some (digitsToNat (c :: rest.takeWhile Char.isDigit))
      else findFirstNat rest

/-- Leftmost match of `re.search(r'(\d+[.,]\d+)', …)` converted by
`float(match.group(1).replace(',', '.'))`: greedy digit run, a dot or a
comma, greedy digit run. -/
def findDecimal : List Char → Option ℚ
  | [] => none
  | c :: rest =>
      if c.isDigit then
        match rest.dropWhile Char.isDigit with
        | sep :: t =>
            if (sep = '.' || sep = ',') && !(t.takeWhile Char.isDigit).isEmpty then
              some (decimalValue (c :: rest.takeWhile Char.isDigit) (t.takeWhile Char.isDigit))
            else findDecimal rest
        | [] => findDecimal rest
      else findDecimal rest

/-! ## Data model (`ProductData` dataclass, wb_selenium_scraper.py 24-35) -/

/-- The record assembled for one Wildberries product. -/
structure ProductData where
  marketplace : List Char
  article : List Char
  name : List Char
  price : ℚ
  old_price : Option ℚ
  availability : List Char
  rating : Option ℚ
  reviews_count : ℕ
  url : List Char
  collected_at : List Char
deriving DecidableEq

/-- The dict built by the Ozon scraper (same keys minus `availability`). -/
structure OzonItem where
  marketplace : List Char
  article : List Char
  name : List Char
  price : ℚ
  old_price : Option ℚ
  rating : Option ℚ
  reviews_count : ℕ
  url : List Char
  collected_at : List Char
deriving DecidableEq

/-! ## Block detection (`is_blocked`, wb_selenium_scraper.py 258-277) -/

/-- The fixed denylist of blocking/CAPTCHA phrases. -/
def block_indicators : List (List Char) :=
  ["включите javascript".data, "вы не робот".data,
   "checking your browser".data, "please wait".data,
   "доступ ограничен".data, "captcha".data, "капча".data,
   "доступ к сайту закрыт".data, "blocked".data, "security check".data]

/-- Everything `collect_product_data` observes of a rendered Wildberries
product page.  Selector-level results are recorded as the texts and flags
the Selenium calls would return; `lookupFails`/`loadFails` model the
places where a WebDriver call raises. -/
structure WBPage where
  /-- Navigation / page load raised (caught by the outer `except`). -/
  loadFails : Bool
  /-- Reading title/body inside `is_blocked` raised (its own `except`). -/
  lookupFails : Bool
  title : List Char
  body : List Char
  /-- Result of `extract_product_name` on this page (`None` when no
  selector nor the document title produced a usable name). -/
  nameResult : Option (List Char)
  /-- Texts of the price elements, in the order the selector lists and the
  ₽-symbol XPath search visit them. -/
  priceTexts : List (List Char)
  /-- Price candidates found in script payloads mentioning this article:
  `(pattern is a *PriceU kopeck pattern, matched digit string)`. -/
  scriptCandidates : List (Bool × List Char)
  oldPriceTexts : List (List Char)
  /-- Some element of the out-of-stock selector list is displayed. -/
  outOfStockVisible : Bool
  /-- Some element of the add-to-cart selector list is displayed and
  enabled. -/
  addToCartUsable : Bool
  /-- Rating sources in visit order: element text, then the `data-rate`,
  `data-rating`, `content`, `value` attributes, per matching element. -/
  ratingSources : List (List Char)
  /-- Stripped texts of the review-count elements, in visit order. -/
  reviewsTexts : List (List Char)
  collectedAt : List Char

/-- `is_blocked`: lower-case the page title and the body text and look for
any denylisted phrase in either; any internal failure is swallowed and
reported as not blocked. -/
def is_blocked (page : WBPage) : Bool :=
  if page.lookupFails then false
  else
    block_indicators.any fun ind =>
      containsSub ind (pyLower page.body) || containsSub ind (pyLower page.title)

/-! ## Wildberries field extractors -/

/-- One candidate of `extract_price_from_scripts` (wb 376-412): `float` the
matched string, divide by 100 when the pattern was a `…PriceU` kopeck
pattern, keep it only inside the plausibility band. -/
def script_price_candidate (isPriceU : Bool) (matched : List Char) : Option ℚ :=
  match pyFloat matched with
  | none => none
  | some p0 =>
      let p := if isPriceU then mkRat p0.num (p0.den * 100) else p0
      if 10 ≤ p ∧ p ≤ 1000000 then some p else none

/-- `extract_price_from_scripts`: first in-band candidate from the script
payloads. -/
def extract_price_from_scripts (cands : List (Bool × List Char)) : Option ℚ :=
  firstSome (cands.map fun c => script_price_candidate c.1 c.2)

/-- `extract_product_price` (wb 324-374): try every price element text
through `extract_price_from_text` (returning on a truthy hit), then fall
back to the script payloads. -/
def extract_product_price (page : WBPage) : Option ℚ :=
  match firstTruthy (page.priceTexts.map extract_price_from_text) with
  | some p => some p
  | none =>
      match extract_price_from_scripts page.scriptCandidates with
      | some p => if p = 0 then none else some p
      | none => none

/-- `extract_old_price` (wb 414-437): first truthy
`extract_price_from_text` hit over the old-price element texts. -/
def extract_old_price (texts : List (List Char)) : Option ℚ :=
  firstTruthy (texts.map extract_price_from_text)

/-- `extract_availability` (wb 439-484): a displayed out-of-stock element
wins; else a usable add-to-cart control; else "unknown" for a zero price
and "in stock" otherwise. -/
def extract_availability (outOfStock addToCart : Bool) (price : ℚ) : List Char :=
  if outOfStock then "Нет в наличии".data
  else if addToCart then "В наличии".data
  else if price = 0 then "Неизвестно".data
  else "В наличии".data

/-- `WildberriesSeleniumScraper.extract_rating` (wb 486-522): first source
whose `(\d+[.,]\d+)` match lies in `[0, 5]`; falsy sources and
out-of-range candidates are skipped. -/
def wb_extract_rating : List (List Char) → Option ℚ
  | [] => none
  | s :: rest =>
      if s ≠ [] then
        match findDecimal s with
        | some r => if 0 ≤ r ∧ r ≤ 5 then some r else wb_extract_rating rest
        | none => wb_extract_rating rest
      else wb_extract_rating rest

/-- `WildberriesSeleniumScraper.extract_reviews_count` (wb 524-551): first
element text that contains a digit run after removing spaces; default 0. -/
def wb_extract_reviews : List (List Char) → ℕ
  | [] => 0
  | t :: rest =>
      match findFirstNat ((pyStrip t).filter (fun c => c.toNat ≠ 32)) with
      | some n => n
      | none => wb_extract_reviews rest

/-- Product page URL built at wb 183. -/
def wbUrl (article : List Char) : List Char :=
  "https://www.wildberries.ru/catalog/".data ++ article ++ "/detail.aspx".data

/-- `WildberriesSeleniumScraper.collect_product_data` (wb 181-256): abort
on load failure or a blocked page, require a truthy name and price, then
assemble the record. -/
def collect_product_data (article : List Char) (page : WBPage) : Option ProductData :=
  if page.loadFails then none
  else if is_blocked page then none
  else
    match page.nameResult with
    | none => none
    | some name =>
        if name = [] then none
        else
          match extract_product_price page with
          | none => none
          | some price =>
              if price = 0 then none
              else
                some { marketplace := "Wildberries".data
                       article := article
                       name := name
                       price := price
                       old_price := extract_old_price page.oldPriceTexts
                       availability := extract_availability page.outOfStockVisible
                         page.addToCartUsable price
                       rating := wb_extract_rating page.ratingSources
                       reviews_count := wb_extract_reviews page.reviewsTexts
                       url := wbUrl article
                       collected_at := page.collectedAt }

/-! ## Ozon search-tile extractors (ozon_selenium_scraper.py) -/

/-- Everything `extract_product_info_immediately` observes of one search
result tile. -/
structure OzonTile where
  /-- First `href` produced by the link selectors (`None` when none). -/
  url : Option (List Char)
  /-- Result of `extract_article_from_url` on that URL (the empty string
  when no pattern matched). -/
  articleFromUrl : List Char
  /-- Texts of the title elements, in visit order. -/
  nameCandidates : List (List Char)
  /-- `element.text.split('\n')[0]`, the fallback name source. -/
  fallbackFirstLine : List Char
  /-- Texts of the price elements, in visit order. -/
  priceTexts : List (List Char)
  /-- Strings matched by the regex fallback over `element.text`. -/
  priceFallbackMatches : List (List Char)
  ratingTexts : List (List Char)
  reviewsTexts : List (List Char)
  oldPriceTexts : List (List Char)
  collectedAt : List Char

/-- One element text inside `extract_accurate_price` (ozon 200-228): keep
digits and whitespace, drop the whitespace, require at least three digits
and the band `[1000, 100000]`. -/
def ozon_price_from_text (t : List Char) : Option ℚ :=
  let s := pyStrip t
  if s ≠ [] then
    let c1 := s.filter fun c => c.isDigit || isPyWhitespace c
    let c2 := c1.filter fun c => ¬ isPyWhitespace c
    if c2 ≠ [] ∧ 3 ≤ c2.length then
      let price := digitsToNat c2
      if 1000 ≤ price ∧ price ≤ 100000 then some (price : ℚ) else none
    else none
  else none

/-- One regex fallback match inside `extract_accurate_price` (ozon
230-244): keep the digits of the matched group and apply the same band. -/
def ozon_fallback_price (m : List Char) : Option ℚ :=
  let clean := m.filter Char.isDigit
  if clean ≠ [] then
    let price := digitsToNat clean
    if 1000 ≤ price ∧ price ≤ 100000 then some (price : ℚ) else none
  else none

/-- `extract_accurate_price`: element texts first, regex fallback second. -/
def extract_accurate_price (tile : OzonTile) : Option ℚ :=
  match firstSome (tile.priceTexts.map ozon_price_from_text) with
  | some p => some p
  | none => firstSome (tile.priceFallbackMatches.map ozon_fallback_price)

/-- `extract_product_name` (ozon 251-285): first stripped title text
longer than 10 characters, else the first line of the tile text when
longer than 10 characters. -/
def ozon_extract_name (tile : OzonTile) : Option (List Char) :=
  match firstSome (tile.nameCandidates.map fun t =>
      let s := pyStrip t
      if s ≠ [] ∧ 10 < s.length then some s else none) with
  | some n => some n
  | none =>
      let t := tile.fallbackFirstLine
      if t ≠ [] ∧ 10 < t.length then some t else none

/-- `extract_rating` (ozon 287-309): first stripped element text with a
`(\d+[.,]\d+)` match, converted by `float` — with no range check. -/
def ozon_extract_rating : List (List Char) → Option ℚ
  | [] => none
  | t :: rest =>
      if pyStrip t ≠ [] then
        match findDecimal (pyStrip t) with
        | some r => some r
        | none => ozon_extract_rating rest
      else ozon_extract_rating rest

/-- `extract_reviews_count` (ozon 311-333): first stripped element text
with a `(\d+)` match (no space normalisation); default 0. -/
def ozon_extract_reviews : List (List Char) → ℕ
  | [] => 0
  | t :: rest =>
      if pyStrip t ≠ [] then
        match findFirstNat (pyStrip t) with
        | some n => n
        | none => ozon_extract_reviews rest
      else ozon_extract_reviews rest

/-- `extract_old_price` (ozon 335-361): keep digits and whitespace, drop
whitespace, need at least three digits and a value above 1000. -/
def ozon_extract_old_price_text (t : List Char) : Option ℚ :=
  let s := pyStrip t
  if s ≠ [] then
    let c1 := s.filter fun c => c.isDigit || isPyWhitespace c
    let c2 := c1.filter fun c => ¬ isPyWhitespace c
    if c2 ≠ [] ∧ 3 ≤ c2.length then
      let p := digitsToNat c2
      if 1000 < p then some (p : ℚ) else none
    else none
  else none

/-- `extract_old_price` over the tile's old-price element texts. -/
def ozon_extract_old_price (texts : List (List Char)) : Option ℚ :=
  firstSome (texts.map ozon_extract_old_price_text)

/-- `extract_product_info_immediately` (ozon 128-184): require a truthy
URL, article, name and a price of at least 1000, then build the dict. -/
def extract_product_info_immediately (tile : OzonTile) : Option OzonItem :=
  match tile.url with
  | none => none
  | some u =>
      if u = [] then none
      else
        if tile.articleFromUrl = [] then none
        else
          match ozon_extract_name tile with
          | none => none
          | some name =>
              if name = [] then none
              else
                match extract_accurate_price tile with
                | none => none
                | some price =>
                    if price = 0 ∨ price < 1000 then none
                    else
                      some { marketplace := "Ozon".data
                             article := tile.articleFromUrl
                             name := name
                             price := price
                             old_price := ozon_extract_old_price tile.oldPriceTexts
                             rating := ozon_extract_rating tile.ratingTexts
                             reviews_count := ozon_extract_reviews tile.reviewsTexts
                             url := u
                             collected_at := tile.collectedAt }

/-! ## Persistence and cross-run merge (`save_to_json`, wb 553-597 /
ozon 439-480; the two copies are identical) -/

/-- Natural key used by the dedup loop: `(str(item['article']),
item['marketplace'])`. -/
def recKey (r : ProductData) : List Char × List Char :=
  (r.article, r.marketplace)

/-- The dedup loop of `save_to_json`: walk the concatenated list keeping
each record whose key has not been seen yet. -/
def dedupByKey : List ProductData → List (List Char × List Char) → List ProductData
  | [], _ => []
  | r :: rs, seen =>
      if recKey r ∈ seen then dedupByKey rs seen
      else r :: dedupByKey rs (recKey r :: seen)

/-- State of the previously persisted file, as `save_to_json` can
encounter it. -/
inductive PriorFile
  /-- `os.path.exists` is false. -/
  | absent
  /-- The file parses as a list of records. -/
  | ok (records : List ProductData)
  /-- `json.load` raises `JSONDecodeError` (caught, treated as empty). -/
  | corrupt
  /-- Opening/reading raises something else (hits the outer `except`). -/
  | unreadable
deriving DecidableEq

/-- Filesystem outcomes around one `save_to_json` call. -/
structure SaveEnv where
  prior : PriorFile
  /-- The final `open(..., 'w')`/`json.dump` raises. -/
  writeFails : Bool

/-- `save_to_json`: for a filename containing "latest", read the prior
records (a corrupt file counting as empty), concatenate prior-then-new and
deduplicate by `(article, marketplace)` keeping first occurrences; other
filenames just deduplicate the new data.  The Boolean is the Python return
value, the second component the records written, if any. -/
def save_to_json (filename : List Char) (env : SaveEnv) (data : List ProductData) :
    Bool × Option (List ProductData) :=
  let isLatest := containsSub "latest".data filename
  if isLatest && env.prior = PriorFile.unreadable then (false, none)
  else
    let existing := if isLatest then
        match env.prior with
        | PriorFile.ok records => records
        | _ => []
      else []
    let all_data := if isLatest then existing ++ data else data
    let unique_data := dedupByKey all_data []
    if env.writeFails then (false, none) else (true, some unique_data)

/-! ## Shape of a price-bearing text (for the normalizer specification) -/

/-- Digit groups joined by single spaces — the textual shape of a number
with thousands separators ("1 234"). -/
def spacedJoin : List (List Char) → List Char
  | [] => []
  | [g] => g
  | g :: gs => g ++ Char.ofNat 32 :: spacedJoin gs

/-- A price-bearing text: opaque non-numeric characters, the spaced digit
groups, an optional decimal comma with fractional digits, more opaque
characters. -/
def priceText (pre : List Char) (groups : List (List Char)) (frac post : List Char) :
    List Char :=
  pre ++ spacedJoin groups ++ (if frac = [] then [] else ',' :: frac) ++ post

/-- The value such a text denotes: the concatenated groups as the integer
part, the comma read as a decimal point. -/
def priceVal (groups : List (List Char)) (frac : List Char) : ℚ :=
  decimalValue groups.flatten frac

/-! ## Concrete pages, tiles and records used to exercise the pipeline -/

/-- Filename of the latest store (default of both `save_to_json`s). -/
def latestFilename : List Char := "data/products_latest.json".data

/-- An Ozon search tile whose link, article, name and price all resolve. -/
def tileC2 : OzonTile :=
  { url := some "https://www.ozon.ru/product/tv-123456/".data
    articleFromUrl := "123456".data
    nameCandidates := ["умный телевизор 32".data]
    fallbackFirstLine := []
    priceTexts := ["25 990 ₽".data]
    priceFallbackMatches := []
    ratingTexts := []
    reviewsTexts := []
    oldPriceTexts := []
    collectedAt := "2026-10-12T00:00:00".data }

/-- The dict `extract_product_info_immediately` builds from `tileC2`. -/
def itemC2 : OzonItem :=
  { marketplace := "Ozon".data
    article := "123456".data
    name := "умный телевизор 32".data
    price := 25990
    old_price := none
    rating := none
    reviews_count := 0
    url := "https://www.ozon.ru/product/tv-123456/".data
    collected_at := "2026-10-12T00:00:00".data }

/-- A Wildberries page whose name and price extraction succeed. -/
def pageC2 : WBPage :=
  { loadFails := false
    lookupFails := false
    title := "Смарт ТВ — Wildberries".data
    body := "Смарт ТВ 32 дюйма 25 990 ₽".data
    nameResult := some "Смарт ТВ 32 дюйма".data
    priceTexts := ["25 990 ₽".data]
    scriptCandidates := []
    oldPriceTexts := []
    outOfStockVisible := false
    addToCartUsable := true
    ratingSources := []
    reviewsTexts := []
    collectedAt := "2026-10-12T00:00:00".data }

/-- The record `collect_product_data` assembles from `pageC2` when it is
called with the empty article string. -/
def recC2 : ProductData :=
  { marketplace := "Wildberries".data
    article := []
    name := "Смарт ТВ 32 дюйма".data
    price := 25990
    old_price := none
    availability := "В наличии".data
    rating := none
    reviews_count := 0
    url := wbUrl []
    collected_at := "2026-10-12T00:00:00".data }

/-- A page whose body text contains the denylisted phrase "captcha". -/
def pageC4 : WBPage :=
  { loadFails := false
    lookupFails := false
    title := "Wildberries".data
    body := "Проверка безопасности: CAPTCHA".data
    nameResult := some "Смарт ТВ 32 дюйма".data
    priceTexts := ["25 990 ₽".data]
    scriptCandidates := []
    oldPriceTexts := []
    outOfStockVisible := false
    addToCartUsable := true
    ratingSources := []
    reviewsTexts := []
    collectedAt := "2026-10-12T00:00:00".data }

/-- A record for exercising the persistence layer. -/
def recC7 : ProductData :=
  { marketplace := "Wildberries".data
    article := "358384386".data
    name := "Тестовый товар".data
    price := 500
    old_price := none
    availability := "В наличии".data
    rating := none
    reviews_count := 0
    url := wbUrl "358384386".data
    collected_at := "2026-10-12T00:00:00".data }

/-- A Wildberries page on which every extractor succeeds. -/
def pageC10 : WBPage :=
  { loadFails := false
    lookupFails := false
    title := "Смарт ТВ — Wildberries".data
    body := "Смарт ТВ 32 дюйма 25 990 ₽".data
    nameResult := some "Смарт ТВ 32 дюйма".data
    priceTexts := ["25 990 ₽".data]
    scriptCandidates := []
    oldPriceTexts := []
    outOfStockVisible := false
    addToCartUsable := true
    ratingSources := ["4,8".data]
    reviewsTexts := ["1 234 отзыва".data]
    collectedAt := "2026-10-12T00:00:00".data }

/-- The record assembled from `pageC10` for article 358384386. -/
def recC10 : ProductData :=
  { marketplace := "Wildberries".data
    article := "358384386".data
    name := "Смарт ТВ 32 дюйма".data
    price := 25990
    old_price := none
    availability := "В наличии".data
    rating := some (mkRat 24 5)
    reviews_count := 1234
    url := wbUrl "358384386".data
    collected_at := "2026-10-12T00:00:00".data }

/-! ## Character-class facts -/

theorem isDigit_bounds {c : Char} (h : c.isDigit = true) :
    48 ≤ c.toNat ∧ c.toNat ≤ 57 := by
  simp [Char.isDigit] at h
  exact h

theorem digit_not_ws {c : Char} (h : c.isDigit = true) : isPyWhitespace c = false := by
  obtain ⟨h1, h2⟩ := isDigit_bounds h
  simp only [isPyWhitespace, Bool.or_eq_false_iff, decide_eq_false_iff_not]
  omega

theorem digit_ne_space {c : Char} (h : c.isDigit = true) : c.toNat ≠ 32 := by
  obtain ⟨h1, h2⟩ := isDigit_bounds h
  omega

theorem digit_ne_comma {c : Char} (h : c.isDigit = true) : c ≠ ',' := by
  intro hc
  rw [hc] at h
  exact absurd h (by decide)

theorem ws_kept {c : Char} (h : isPyWhitespace c = true) : keptChar c = true := by
  simp [keptChar, h]

theorem not_kept_not_ws {c : Char} (h : keptChar c = false) :
    isPyWhitespace c = false := by
  cases hw : isPyWhitespace c
  · rfl
  · rw [ws_kept hw] at h
    cases h

/-! ## Scan-helper facts -/

theorem firstSome_mem {α : Type} :
    ∀ (l : List (Option α)) (a : α), firstSome l = some a → some a ∈ l := by
  intro l
  induction l with
  | nil => intro a h; cases h
  | cons o rest ih =>
      intro a h
      match o with
      | some b => rw [firstSome] at h; exact h ▸ List.mem_cons_self _ _
      | none => exact List.mem_cons_of_mem _ (ih a h)

theorem firstTruthy_mem :
    ∀ (l : List (Option ℚ)) (p : ℚ), firstTruthy l = some p → some p ∈ l := by
  intro l
  induction l with
  | nil => intro p h; cases h
  | cons o rest ih =>
      intro p h
      match o with
      | some q =>
          rw [firstTruthy] at h
          by_cases hq : q = 0
          · rw [if_pos hq] at h
            exact List.mem_cons_of_mem _ (ih p h)
          · rw [if_neg hq] at h
            exact h ▸ List.mem_cons_self _ _
      | none => exact List.mem_cons_of_mem _ (ih p h)

/-! ## Plausibility-band facts for the price extractors -/

theorem extract_price_band (t : List Char) (v : ℚ)
    (h : extract_price_from_text t = some v) : 10 ≤ v ∧ v ≤ 1000000 := by
  rw [extract_price_from_text] at h
  simp only [] at h
  split at h
  · cases h
  · split at h
    · split at h
      · cases h
      · split at h
        · rename_i hband
          cases h
          exact hband
        · cases h
    · cases h

theorem script_price_band (b : Bool) (m : List Char) (v : ℚ)
    (h : script_price_candidate b m = some v) : 10 ≤ v ∧ v ≤ 1000000 := by
  unfold script_price_candidate at h
  cases hpf : pyFloat m with
  | none => rw [hpf] at h; cases h
  | some p0 =>
      simp only [hpf] at h
      by_cases hband : 10 ≤ (if b then mkRat p0.num (p0.den * 100) else p0) ∧
          (if b then mkRat p0.num (p0.den * 100) else p0) ≤ 1000000
      · rw [if_pos hband] at h
        cases h
        exact hband
      · rw [if_neg hband] at h
        cases h

theorem extract_price_from_scripts_band (cands : List (Bool × List Char)) (v : ℚ)
    (h : extract_price_from_scripts cands = some v) : 10 ≤ v ∧ v ≤ 1000000 := by
  have hm := firstSome_mem _ _ h
  rw [List.mem_map] at hm
  obtain ⟨c, _, hc⟩ := hm
  exact script_price_band c.1 c.2 v hc

theorem extract_product_price_band (page : WBPage) (v : ℚ)
    (h : extract_product_price page = some v) : 10 ≤ v ∧ v ≤ 1000000 := by
  unfold extract_product_price at h
  split at h
  · rename_i p hp
    cases h
    have hm := firstTruthy_mem _ _ hp
    rw [List.mem_map] at hm
    obtain ⟨t, _, ht⟩ := hm
    exact extract_price_band t v ht
  · split at h
    · rename_i p hp
      split at h
      · cases h
      · cases h
        exact extract_price_from_scripts_band _ _ hp
    · cases h

/-! ## Rating range on Wildberries -/

theorem wb_extract_rating_range :
    ∀ (l : List (List Char)) (r : ℚ), wb_extract_rating l = some r → 0 ≤ r ∧ r ≤ 5 := by
  intro l
  induction l with
  | nil => intro r h; cases h
  | cons s rest ih =>
      intro r h
      rw [wb_extract_rating] at h
      by_cases hs : s ≠ []
      · rw [if_pos hs] at h
        cases hfd : findDecimal s with
        | none => rw [hfd] at h; exact ih r h
        | some r0 =>
            rw [hfd] at h
            dsimp only at h
            by_cases hrange : 0 ≤ r0 ∧ r0 ≤ 5
            · rw [if_pos hrange] at h
              cases h
              exact hrange
            · rw [if_neg hrange] at h
              exact ih r h
      · rw [if_neg hs] at h
        exact ih r h

/-! ## Dedup facts (`save_to_json`'s first-occurrence-wins loop) -/

theorem dedupByKey_key_not_seen :
    ∀ (l : List ProductData) (seen : List (List Char × List Char)) (r : ProductData),
      r ∈ dedupByKey l seen → recKey r ∉ seen := by
  intro l
  induction l with
  | nil => intro seen r h; cases h
  | cons x rs ih =>
      intro seen r h
      rw [dedupByKey] at h
      by_cases hx : recKey x ∈ seen
      · rw [if_pos hx] at h
        exact ih seen r h
      · rw [if_neg hx] at h
        rcases List.mem_cons.mp h with rfl | hmem
        · exact hx
        · intro hseen
          exact ih _ r hmem (List.mem_cons_of_mem _ hseen)

theorem dedupByKey_nodup :
    ∀ (l : List ProductData) (seen : List (List Char × List Char)),
      ((dedupByKey l seen).map recKey).Nodup := by
  intro l
  induction l with
  | nil => intro seen; simp [dedupByKey]
  | cons x rs ih =>
      intro seen
      rw [dedupByKey]
      by_cases hx : recKey x ∈ seen
      · rw [if_pos hx]
        exact ih seen
      · rw [if_neg hx]
        rw [List.map_cons, List.nodup_cons]
        refine ⟨?_, ih _⟩
        intro hmem
        rw [List.mem_map] at hmem
        obtain ⟨r, hr, hkey⟩ := hmem
        have := dedupByKey_key_not_seen _ _ _ hr
        exact this (hkey ▸ List.mem_cons_self _ _)

theorem dedupByKey_find? :
    ∀ (l : List ProductData) (seen : List (List Char × List Char))
      (k : List Char × List Char), k ∉ seen →
      (dedupByKey l seen).find? (fun r => recKey r == k)
        = l.find? (fun r => recKey r == k) := by
  intro l
  induction l with
  | nil => intro seen k _; simp [dedupByKey]
  | cons x rs ih =>
      intro seen k hk
      rw [dedupByKey]
      by_cases hx : recKey x ∈ seen
      · rw [if_pos hx]
        have hne : recKey x ≠ k := fun he => hk (he ▸ hx)
        rw [List.find?_cons_of_neg _ (by simpa using hne), ih seen k hk]
      · rw [if_neg hx]
        by_cases hkey : recKey x = k
        · rw [List.find?_cons_of_pos _ (by simpa using hkey),
            List.find?_cons_of_pos _ (by simpa using hkey)]
        · rw [List.find?_cons_of_neg _ (by simpa using hkey),
            List.find?_cons_of_neg _ (by simpa using hkey)]
          refine ih _ k ?_
          intro hmem
          rcases List.mem_cons.mp hmem with he | hseen
          · exact hkey he.symm
          · exact hk hseen

/-! ## Substring test agrees with `List.IsInfix` -/

theorem containsSub_iff_infix (n : List Char) :
    ∀ (h : List Char), containsSub n h = true ↔ n <:+: h := by
  intro h
  induction h with
  | nil =>
      rw [containsSub]
      simp [List.isEmpty_iff]
  | cons c rest ih =>
      rw [containsSub, Bool.or_eq_true, List.isPrefixOf_iff_prefix, ih,
        List.infix_cons_iff]

/-! ## Claims about the latest-store merge -/

/-- Claim C1: merging into the latest store concatenates prior records
with the new run's records and deduplicates by `(article, marketplace)`
keeping the first occurrence in prior-then-new order, so a prior record
wins over a new one with the same key and a new record with a fresh key is
included; each key occurs at most once in what is written. -/
theorem save_latest_first_occurrence_wins (prior new : List ProductData) :
    save_to_json latestFilename ⟨PriorFile.ok prior, false⟩ new
        = (true, some (dedupByKey (prior ++ new) []))
      ∧ ((dedupByKey (prior ++ new) []).map recKey).Nodup
      ∧ ∀ k, (dedupByKey (prior ++ new) []).find? (fun r => recKey r == k)
              = (prior ++ new).find? (fun r => recKey r == k) := by
  refine ⟨?_, dedupByKey_nodup _ _, fun k => dedupByKey_find? _ _ k (by simp)⟩
  have hlat : containsSub "latest".data latestFilename = true := by decide
  simp [save_to_json, hlat]

/-- Claim C7 counterexample: with an existing latest file whose read
raises something other than a JSON decode error, `save_to_json` returns
`False` and writes nothing, instead of treating the prior contents as
empty and writing the current run's records. -/
theorem save_latest_unreadable_counterexample :
    save_to_json latestFilename ⟨PriorFile.unreadable, false⟩ [recC7] = (false, none) := by
  decide

/-- Claim C7 as amended: a prior latest file that raises a JSON decode
error is treated as empty and the run's deduplicated records are still
written (unless the write itself fails, which is reported as `False`);
a prior file whose read raises any other error makes `save_to_json`
return `False` without writing.  In either case the in-memory `data`
argument is untouched (the model is a pure function of it). -/
theorem save_latest_failure_handling (data : List ProductData) (wf : Bool) :
    save_to_json latestFilename ⟨PriorFile.corrupt, wf⟩ data
        = (if wf then (false, none) else (true, some (dedupByKey data [])))
      ∧ save_to_json latestFilename ⟨PriorFile.unreadable, wf⟩ data = (false, none) := by
  have hlat : containsSub "latest".data latestFilename = true := by decide
  constructor
  · cases wf <;> simp [save_to_json, hlat]
  · simp [save_to_json, hlat]

/-! ## Claims about availability -/

/-- Claim C6: a displayed out-of-stock indicator always wins over a usable
add-to-cart control; with neither present, a zero price reports
"Неизвестно" and a non-zero price defaults to "В наличии". -/
theorem availability_tie_break (cart : Bool) (p : ℚ) :
    extract_availability true cart p = "Нет в наличии".data
      ∧ extract_availability false false 0 = "Неизвестно".data
      ∧ (p ≠ 0 → extract_availability false false p = "В наличии".data) := by
  refine ⟨rfl, by decide, fun hp => ?_⟩
  simp [extract_availability, hp]

/-- Witness for C6 at price 100. -/
theorem availability_tie_break_witness :
    extract_availability false false 100 = "В наличии".data :=
  (availability_tie_break false 100).2.2 (by norm_num)

/-! ## Claims about the reviews-count extractors -/

/-- Claim C8 counterexample: on the text "1 234 отзыва" the Ozon
reviews-count extractor returns 1 — the first digit run before the
space — which is neither the embedded integer 1234 nor the clean-failure
default 0. -/
theorem reviews_spaced_thousands_counterexample :
    ozon_extract_reviews ["1 234 отзыва".data] = 1
      ∧ (1 : ℕ) ≠ 1234 ∧ (1 : ℕ) ≠ 0 := by
  decide

/-- Claim C8 as amended: the Wildberries extractor removes spaces first
and yields 1234 on "1 234 отзыва"; the Ozon extractor does no space
normalisation and yields 1, the first digit run, rather than failing to
the default 0. -/
theorem reviews_spaced_thousands_behaviour :
    wb_extract_reviews ["1 234 отзыва".data] = 1234
      ∧ ozon_extract_reviews ["1 234 отзыва".data] = 1 := by
  decide

/-! ## Claims about price-normalizer safety -/

/-- Claim C9: `extract_price_from_text` is a total function (the
embedding terminates on every string, mirroring the code's catch-all), and
every value it returns lies in the plausibility band `[10, 1000000]`. -/
theorem extract_price_total_band (t : List Char) (v : ℚ)
    (h : extract_price_from_text t = some v) : 10 ≤ v ∧ v ≤ 1000000 :=
  extract_price_band t v h

/-- Witness for C9 on the text "25 990 ₽". -/
theorem extract_price_total_band_witness :
    10 ≤ (25990 : ℚ) ∧ (25990 : ℚ) ≤ 1000000 :=
  extract_price_total_band "25 990 ₽".data 25990 (by decide)

/-! ## Claims about record assembly -/

/-- Claim C2 counterexample: the Wildberries assembler copies the
caller-supplied article through unchecked, so with an empty article string
and a page whose name and price resolve it assembles a record whose
`article` is empty. -/
theorem assembler_empty_article_counterexample :
    collect_product_data [] pageC2 = some recC2 ∧ recC2.article = [] :=
  ⟨by decide, rfl⟩

/-- Claim C2 as amended: on Ozon, every assembled item has a non-empty
article, a non-empty name and a positive price; on Wildberries, every
assembled record has a non-empty name and a positive price, and its
article is the caller-supplied identifier copied through unchecked. -/
theorem assembler_required_fields :
    (∀ (tile : OzonTile) (r : OzonItem),
        extract_product_info_immediately tile = some r →
          r.article ≠ [] ∧ r.name ≠ [] ∧ 0 < r.price)
      ∧ ∀ (a : List Char) (page : WBPage) (r : ProductData),
          collect_product_data a page = some r →
            r.name ≠ [] ∧ 0 < r.price ∧ r.article = a := by
  constructor
  · intro tile r h
    unfold extract_product_info_immediately at h
    cases hu : tile.url with
    | none => rw [hu] at h; cases h
    | some u =>
        simp only [hu] at h
        by_cases hue : u = []
        · rw [if_pos hue] at h; cases h
        · rw [if_neg hue] at h
          by_cases hart : tile.articleFromUrl = []
          · rw [if_pos hart] at h; cases h
          · rw [if_neg hart] at h
            cases hn : ozon_extract_name tile with
            | none => rw [hn] at h; cases h
            | some name =>
                simp only [hn] at h
                by_cases hne : name = []
                · rw [if_pos hne] at h; cases h
                · rw [if_neg hne] at h
                  cases hp : extract_accurate_price tile with
                  | none => rw [hp] at h; cases h
                  | some price =>
                      simp only [hp] at h
                      by_cases hguard : price = 0 ∨ price < 1000
                      · rw [if_pos hguard] at h; cases h
                      · rw [if_neg hguard] at h
                        cases h
                        push_neg at hguard
                        exact ⟨hart, hne, lt_of_lt_of_le (by norm_num) hguard.2⟩
  · intro a page r h
    unfold collect_product_data at h
    by_cases hl : page.loadFails = true
    · simp [hl] at h
    · rw [if_neg hl] at h
      by_cases hb : is_blocked page = true
      · rw [if_pos hb] at h; cases h
      · rw [if_neg hb] at h
        cases hn : page.nameResult with
        | none => rw [hn] at h; cases h
        | some name =>
            simp only [hn] at h
            by_cases hne : name = []
            · rw [if_pos hne] at h; cases h
            · rw [if_neg hne] at h
              cases hp : extract_product_price page with
              | none => rw [hp] at h; cases h
              | some price =>
                  simp only [hp] at h
                  by_cases hp0 : price = 0
                  · rw [if_pos hp0] at h; cases h
                  · rw [if_neg hp0] at h
                    cases h
                    have hband := extract_product_price_band page _ hp
                    exact ⟨hne, lt_of_lt_of_le (by norm_num) hband.1, rfl⟩

/-- Witness for the Ozon half of C2 on a fully resolving tile. -/
theorem assembler_required_fields_witness :
    itemC2.article ≠ [] ∧ itemC2.name ≠ [] ∧ 0 < itemC2.price :=
  assembler_required_fields.1 tileC2 itemC2 (by decide)

/-! ## Claims about block detection -/

/-- Claim C4: `is_blocked` is true exactly when some denylisted phrase
occurs in the lower-cased body text or the lower-cased title, provided the
title/body lookup did not raise; an internal failure yields false
(fail-open); and a blocked page makes the per-target flow return no
record. -/
theorem is_blocked_characterisation (page : WBPage) :
    (is_blocked page = true ↔
        page.lookupFails = false
          ∧ ∃ ind ∈ block_indicators,
              ind <:+: pyLower page.body ∨ ind <:+: pyLower page.title)
      ∧ ∀ (a : List Char), is_blocked page = true → collect_product_data a page = none := by
  constructor
  · cases hl : page.lookupFails
    · simp [is_blocked, hl, List.any_eq_true, containsSub_iff_infix]
    · simp [is_blocked, hl]
  · intro a hb
    cases hl : page.loadFails
    · simp [collect_product_data, hl, hb]
    · simp [collect_product_data, hl]

/-- Witness for C4: a page whose body contains "captcha" is blocked and
produces no record. -/
theorem is_blocked_characterisation_witness :
    collect_product_data "358384386".data pageC4 = none :=
  (is_blocked_characterisation pageC4).2 "358384386".data (by decide)

/-! ## Claims about the rating extractors -/

/-- Claim C5 counterexample: the Ozon rating extractor, given the element
text "7,5", returns 7.5 — a value outside [0, 5] — instead of rejecting
it. -/
theorem ozon_rating_out_of_range_counterexample :
    ozon_extract_rating ["7,5".data] = some (mkRat 15 2)
      ∧ ¬((mkRat 15 2 : ℚ) ≤ 5) := by
  decide

/-- Claim C5 as amended: on Wildberries a returned rating always lies in
[0, 5] and out-of-range candidates are skipped; on Ozon the extractor
returns the first decimal match with no range check, so values above 5
can be recorded. -/
theorem rating_range_policy :
    (∀ (sources : List (List Char)) (r : ℚ),
        wb_extract_rating sources = some r → 0 ≤ r ∧ r ≤ 5)
      ∧ ∃ (texts : List (List Char)) (r : ℚ),
          ozon_extract_rating texts = some r ∧ 5 < r :=
  ⟨wb_extract_rating_range, ⟨["7,5".data], mkRat 15 2, by decide, by decide⟩⟩

/-- Witness for the Wildberries half of C5 on the source text "4,5". -/
theorem rating_range_policy_witness :
    0 ≤ (mkRat 9 2 : ℚ) ∧ (mkRat 9 2 : ℚ) ≤ 5 :=
  rating_range_policy.1 ["4,5".data] (mkRat 9 2) (by decide)

/-! ## Claims about availability in assembled Wildberries records -/

/-- Claim C10: every record assembled by `collect_product_data` has
availability "В наличии" or "Нет в наличии" and never "Неизвестно": the
zero-price branch of `extract_availability` is unreachable because every
accepted price is at least 10. -/
theorem wb_availability_never_unknown (a : List Char) (page : WBPage) (r : ProductData)
    (h : collect_product_data a page = some r) :
    (r.availability = "В наличии".data ∨ r.availability = "Нет в наличии".data)
      ∧ r.availability ≠ "Неизвестно".data := by
  have havail : ∀ (o c : Bool) (p : ℚ), p ≠ 0 →
      extract_availability o c p = "В наличии".data
        ∨ extract_availability o c p = "Нет в наличии".data := by
    intro o c p hp
    cases o
    · cases c
      · simp [extract_availability, hp]
      · simp [extract_availability]
    · simp [extract_availability]
  unfold collect_product_data at h
  by_cases hl : page.loadFails = true
  · simp [hl] at h
  · rw [if_neg hl] at h
    by_cases hb : is_blocked page = true
    · rw [if_pos hb] at h; cases h
    · rw [if_neg hb] at h
      cases hn : page.nameResult with
      | none => rw [hn] at h; cases h
      | some name =>
          simp only [hn] at h
          by_cases hne : name = []
          · rw [if_pos hne] at h; cases h
          · rw [if_neg hne] at h
            cases hp : extract_product_price page with
            | none => rw [hp] at h; cases h
            | some price =>
                simp only [hp] at h
                by_cases hp0 : price = 0
                · rw [if_pos hp0] at h; cases h
                · rw [if_neg hp0] at h
                  cases h
                  have hband := extract_product_price_band page _ hp
                  have hpne : price ≠ (0 : ℚ) :=
                    ne_of_gt (lt_of_lt_of_le (by norm_num) hband.1)
                  rcases havail page.outOfStockVisible page.addToCartUsable price hpne
                    with hc | hc
                  · refine ⟨Or.inl hc, ?_⟩
                    show extract_availability page.outOfStockVisible page.addToCartUsable
                        price ≠ "Неизвестно".data
                    rw [hc]
                    decide
                  · refine ⟨Or.inr hc, ?_⟩
                    show extract_availability page.outOfStockVisible page.addToCartUsable
                        price ≠ "Неизвестно".data
                    rw [hc]
                    decide

/-- Witness for C10 on a fully resolving page. -/
theorem wb_availability_never_unknown_witness :
    (recC10.availability = "В наличии".data ∨ recC10.availability = "Нет в наличии".data)
      ∧ recC10.availability ≠ "Неизвестно".data :=
  wb_availability_never_unknown "358384386".data pageC10 recC10 (by decide)

/-! ## Support facts for the price-normalizer specification -/

theorem dropWhile_eq_self_of_head {p : Char → Bool} {l : List Char}
    (h : ∀ c ∈ l.head?, p c = false) : l.dropWhile p = l := by
  cases l with
  | nil => rfl
  | cons a t =>
      have ha := h a (by simp)
      simp [List.dropWhile, ha]

theorem pyStrip_eq_self {l : List Char}
    (h1 : ∀ c ∈ l.head?, isPyWhitespace c = false)
    (h2 : ∀ c ∈ l.getLast?, isPyWhitespace c = false) : pyStrip l = l := by
  unfold pyStrip
  rw [dropWhile_eq_self_of_head h1]
  rw [dropWhile_eq_self_of_head (by simpa [List.head?_reverse] using h2)]
  exact List.reverse_reverse l

theorem pyStrip_eq_self_of_all {l : List Char}
    (h : ∀ c ∈ l, isPyWhitespace c = false) : pyStrip l = l := by
  refine pyStrip_eq_self (fun c hc => ?_) (fun c hc => ?_)
  · exact h c (List.mem_of_mem_head? hc)
  · exact h c (List.mem_of_mem_getLast? hc)

theorem takeWhile_all {p : Char → Bool} {l : List Char}
    (h : ∀ c ∈ l, p c = true) : l.takeWhile p = l := by
  induction l with
  | nil => rfl
  | cons a t ih =>
      rw [List.takeWhile_cons, h a (List.mem_cons_self _ _), if_pos rfl]
      rw [ih fun c hc => h c (List.mem_cons_of_mem _ hc)]

theorem dropWhile_all {p : Char → Bool} {l : List Char}
    (h : ∀ c ∈ l, p c = true) : l.dropWhile p = [] := by
  induction l with
  | nil => rfl
  | cons a t ih =>
      rw [List.dropWhile_cons, h a (List.mem_cons_self _ _)]
      exact ih fun c hc => h c (List.mem_cons_of_mem _ hc)

theorem takeWhile_append_stop {p : Char → Bool} {l : List Char}
    (h : ∀ c ∈ l, p c = true) {a : Char} {r : List Char} (ha : p a = false) :
    (l ++ a :: r).takeWhile p = l := by
  induction l with
  | nil => simp [List.takeWhile_cons, ha]
  | cons b t ih =>
      rw [List.cons_append, List.takeWhile_cons, h b (List.mem_cons_self _ _), if_pos rfl]
      rw [ih fun c hc => h c (List.mem_cons_of_mem _ hc)]

theorem dropWhile_append_stop {p : Char → Bool} {l : List Char}
    (h : ∀ c ∈ l, p c = true) {a : Char} {r : List Char} (ha : p a = false) :
    (l ++ a :: r).dropWhile p = a :: r := by
  induction l with
  | nil => simp [List.dropWhile_cons, ha]
  | cons b t ih =>
      rw [List.cons_append, List.dropWhile_cons, h b (List.mem_cons_self _ _)]
      exact ih fun c hc => h c (List.mem_cons_of_mem _ hc)

theorem map_eq_self_of {f : Char → Char} {l : List Char}
    (h : ∀ c ∈ l, f c = c) : l.map f = l := by
  induction l with
  | nil => rfl
  | cons a t ih =>
      rw [List.map_cons, h a (List.mem_cons_self _ _)]
      rw [ih fun c hc => h c (List.mem_cons_of_mem _ hc)]

theorem getLast?_cons_ne {a : Char} {t : List Char} (h : t ≠ []) :
    (a :: t).getLast? = t.getLast? := by
  cases t with
  | nil => exact absurd rfl h
  | cons b t2 => exact List.getLast?_cons_cons

theorem getLast?_append_ne {l r : List Char} (h : r ≠ []) :
    (l ++ r).getLast? = r.getLast? := by
  induction l with
  | nil => rfl
  | cons a t ih =>
      rw [List.cons_append, getLast?_cons_ne (List.append_ne_nil_of_right_ne_nil t h), ih]

theorem getLast?_mem_of_ne {l : List Char} (h : l ≠ []) :
    ∃ d, l.getLast? = some d ∧ d ∈ l := by
  exact ⟨l.getLast h, List.getLast?_eq_getLast l h, List.getLast_mem h⟩

theorem spacedJoin_cons_of_ne {g : List Char} {gs : List (List Char)} (h : gs ≠ []) :
    spacedJoin (g :: gs) = g ++ Char.ofNat 32 :: spacedJoin gs := by
  cases gs with
  | nil => exact absurd rfl h
  | cons g2 t => rfl

theorem spacedJoin_head_cons (d : Char) (ds : List Char) (gs : List (List Char)) :
    ∃ t, spacedJoin ((d :: ds) :: gs) = d :: t := by
  cases gs with
  | nil => exact ⟨ds, rfl⟩
  | cons g2 t => exact ⟨ds ++ Char.ofNat 32 :: spacedJoin (g2 :: t), rfl⟩

theorem mem_spacedJoin {c : Char} :
    ∀ {groups : List (List Char)}, c ∈ spacedJoin groups →
      (∃ g ∈ groups, c ∈ g) ∨ c = Char.ofNat 32 := by
  intro groups
  induction groups with
  | nil => intro h; cases h
  | cons g gs ih =>
      intro h
      cases gs with
      | nil =>
          rw [spacedJoin] at h
          exact Or.inl ⟨g, List.mem_cons_self _ _, h⟩
      | cons g2 t =>
          rw [spacedJoin_cons_of_ne (by simp)] at h
          rcases List.mem_append.mp h with hg | hrest
          · exact Or.inl ⟨g, List.mem_cons_self _ _, hg⟩
          · rcases List.mem_cons.mp hrest with rfl | hsj
            · exact Or.inr rfl
            · rcases ih hsj with ⟨g3, hg3, hc⟩ | hsp
              · exact Or.inl ⟨g3, List.mem_cons_of_mem _ hg3, hc⟩
              · exact Or.inr hsp

theorem spacedJoin_getLast_digit :
    ∀ (groups : List (List Char)), groups ≠ [] →
      (∀ g ∈ groups, g ≠ [] ∧ ∀ c ∈ g, c.isDigit = true) →
      ∃ d, (spacedJoin groups).getLast? = some d ∧ d.isDigit = true := by
  intro groups
  induction groups with
  | nil => intro h _; exact absurd rfl h
  | cons g gs ih =>
      intro _ hall
      cases gs with
      | nil =>
          obtain ⟨hne, hdig⟩ := hall g (List.mem_cons_self _ _)
          obtain ⟨d, hd, hmem⟩ := getLast?_mem_of_ne hne
          exact ⟨d, by rw [spacedJoin]; exact hd, hdig d hmem⟩
      | cons g2 t =>
          obtain ⟨d, hd, hdig⟩ := ih (by simp)
            (fun g3 hg3 => hall g3 (List.mem_cons_of_mem _ hg3))
          have hsjne : spacedJoin (g2 :: t) ≠ [] := by
            intro hemp
            rw [hemp] at hd
            cases hd
          refine ⟨d, ?_, hdig⟩
          rw [spacedJoin_cons_of_ne (by simp),
            getLast?_append_ne (by simp), getLast?_cons_ne hsjne, hd]

theorem filter_nospace_spacedJoin :
    ∀ (groups : List (List Char)),
      (∀ g ∈ groups, ∀ c ∈ g, c.isDigit = true) →
      (spacedJoin groups).filter (fun c => c.toNat ≠ 32) = groups.flatten := by
  intro groups
  induction groups with
  | nil => intro _; rfl
  | cons g gs ih =>
      intro hall
      have hg : g.filter (fun c => c.toNat ≠ 32) = g := by
        rw [List.filter_eq_self]
        intro c hc
        exact decide_eq_true (digit_ne_space (hall g (List.mem_cons_self _ _) c hc))
      cases gs with
      | nil =>
          rw [spacedJoin]
          show g.filter (fun c => c.toNat ≠ 32) = List.flatten [g]
          rw [hg]
          simp
      | cons g2 t =>
          rw [spacedJoin_cons_of_ne (by simp), List.filter_append, hg,
            List.filter_cons]
          have hsp : (decide ((Char.ofNat 32).toNat ≠ 32)) = false := by decide
          rw [hsp]
          rw [ih (fun g3 hg3 => hall g3 (List.mem_cons_of_mem _ hg3))]
          simp

theorem pyFloat_digits {l : List Char} (hne : l ≠ [])
    (hdig : ∀ c ∈ l, c.isDigit = true) : pyFloat l = some (decimalValue l []) := by
  simp only [pyFloat]
  rw [pyStrip_eq_self_of_all (fun c hc => digit_not_ws (hdig c hc))]
  rw [takeWhile_all hdig, dropWhile_all hdig]
  simp [List.isEmpty_eq_false.mpr hne]

theorem pyFloat_decimal {l f : List Char} (hlne : l ≠ [])
    (hldig : ∀ c ∈ l, c.isDigit = true)
    (hfdig : ∀ c ∈ f, c.isDigit = true) :
    pyFloat (l ++ '.' :: f) = some (decimalValue l f) := by
  have hnows : ∀ c ∈ l ++ '.' :: f, isPyWhitespace c = false := by
    intro c hc
    rcases List.mem_append.mp hc with hl | hf
    · exact digit_not_ws (hldig c hl)
    · rcases List.mem_cons.mp hf with rfl | hf2
      · decide
      · exact digit_not_ws (hfdig c hf2)
  simp only [pyFloat]
  rw [pyStrip_eq_self_of_all hnows]
  rw [takeWhile_append_stop hldig (by decide), dropWhile_append_stop hldig (by decide)]
  have hall : f.all Char.isDigit = true := List.all_eq_true.mpr hfdig
  simp [hall, List.isEmpty_eq_false.mpr hlne]

/-- Claim C3: on any price-bearing text — opaque non-numeric characters
around digit groups separated by spaces, optionally followed by a decimal
comma and fractional digits — `extract_price_from_text` returns exactly
the value obtained by removing the separators and reading the comma as a
decimal point, when that value lies in the plausibility band, and `none`
when it falls outside the band. -/
theorem price_normalizer_spec (pre post : List Char) (groups : List (List Char))
    (frac : List Char) (hgr : groups ≠ [])
    (hgroups : ∀ g ∈ groups, g ≠ [] ∧ ∀ c ∈ g, c.isDigit = true)
    (hfrac : ∀ c ∈ frac, c.isDigit = true)
    (hpre : ∀ c ∈ pre, keptChar c = false)
    (hpost : ∀ c ∈ post, keptChar c = false) :
    extract_price_from_text (priceText pre groups frac post)
      = if 10 ≤ priceVal groups frac ∧ priceVal groups frac ≤ 1000000
        then some (priceVal groups frac) else none := by
  obtain ⟨g1, gs, rfl⟩ : ∃ g1 gs, groups = g1 :: gs := by
    cases groups with
    | nil => exact absurd rfl hgr
    | cons a b => exact ⟨a, b, rfl⟩
  obtain ⟨hg1ne, hg1dig⟩ := hgroups g1 (List.mem_cons_self _ _)
  obtain ⟨d, ds, rfl⟩ : ∃ d ds, g1 = d :: ds := by
    cases g1 with
    | nil => exact absurd rfl hg1ne
    | cons a b => exact ⟨a, b, rfl⟩
  obtain ⟨t0, hsj⟩ := spacedJoin_head_cons d ds gs
  have hd : d.isDigit = true := hg1dig d (List.mem_cons_self _ _)
  have hdigall : ∀ g ∈ (d :: ds) :: gs, ∀ c ∈ g, c.isDigit = true :=
    fun g hg => (hgroups g hg).2
  have hflatdig : ∀ c ∈ ((d :: ds) :: gs).flatten, c.isDigit = true := by
    intro c hc
    obtain ⟨g, hg, hcg⟩ := List.mem_flatten.mp hc
    exact hdigall g hg c hcg
  have hflatne : ((d :: ds) :: gs).flatten ≠ [] := by
    rw [List.flatten_cons, List.cons_append]
    exact List.cons_ne_nil _ _
  have hsjmem : ∀ c ∈ spacedJoin ((d :: ds) :: gs), keptChar c = true := by
    intro c hc
    rcases mem_spacedJoin hc with ⟨g, hg, hcg⟩ | rfl
    · simp [keptChar, hdigall g hg c hcg]
    · exact ws_kept (by decide)
  have htext : priceText pre ((d :: ds) :: gs) frac post ≠ [] := by
    rw [priceText, hsj]
    intro hemp
    simp [List.append_eq_nil] at hemp
  have hstrip : pyStrip (priceText pre ((d :: ds) :: gs) frac post)
      = priceText pre ((d :: ds) :: gs) frac post := by
    refine pyStrip_eq_self ?_ ?_
    · intro c hc
      rw [priceText] at hc
      cases pre with
      | cons c0 pre2 =>
          simp only [List.cons_append, List.head?_cons, Option.mem_def,
            Option.some.injEq] at hc
          subst hc
          exact not_kept_not_ws (hpre c0 (List.mem_cons_self _ _))
      | nil =>
          rw [List.nil_append, hsj] at hc
          simp only [List.cons_append, List.head?_cons, Option.mem_def,
            Option.some.injEq] at hc
          subst hc
          exact digit_not_ws hd
    · intro c hc
      rw [priceText] at hc
      cases post with
      | cons c1 post2 =>
          obtain ⟨cl, hcl, hclmem⟩ := getLast?_mem_of_ne (List.cons_ne_nil c1 post2)
          rw [getLast?_append_ne (List.cons_ne_nil c1 post2), hcl, Option.mem_def,
            Option.some.injEq] at hc
          subst hc
          exact not_kept_not_ws (hpost cl hclmem)
      | nil =>
          rw [List.append_nil] at hc
          cases frac with
          | cons f0 f2 =>
              obtain ⟨cl, hcl, hclmem⟩ := getLast?_mem_of_ne (List.cons_ne_nil f0 f2)
              rw [if_neg (List.cons_ne_nil f0 f2),
                getLast?_append_ne (List.cons_ne_nil ',' (f0 :: f2)),
                getLast?_cons_ne (List.cons_ne_nil f0 f2), hcl, Option.mem_def,
                Option.some.injEq] at hc
              subst hc
              exact digit_not_ws (hfrac cl hclmem)
          | nil =>
              obtain ⟨d2, hd2, hd2dig⟩ := spacedJoin_getLast_digit ((d :: ds) :: gs)
                (List.cons_ne_nil _ _) hgroups
              rw [if_pos rfl, List.append_nil,
                getLast?_append_ne (by rw [hsj]; exact List.cons_ne_nil d t0), hd2,
                Option.mem_def, Option.some.injEq] at hc
              subst hc
              exact digit_not_ws hd2dig
  have hfilter : (priceText pre ((d :: ds) :: gs) frac post).filter keptChar
      = spacedJoin ((d :: ds) :: gs) ++ (if frac = [] then [] else ',' :: frac) := by
    have hfilpre : pre.filter keptChar = [] :=
      List.filter_eq_nil_iff.mpr (fun a ha => by simp [hpre a ha])
    have hfilpost : post.filter keptChar = [] :=
      List.filter_eq_nil_iff.mpr (fun a ha => by simp [hpost a ha])
    have hfilsj : (spacedJoin ((d :: ds) :: gs)).filter keptChar
        = spacedJoin ((d :: ds) :: gs) := List.filter_eq_self.mpr hsjmem
    have hfilfp : (if frac = [] then [] else ',' :: frac).filter keptChar
        = (if frac = [] then [] else ',' :: frac) := by
      cases frac with
      | nil => rfl
      | cons f0 f2 =>
          rw [if_neg (List.cons_ne_nil f0 f2),
            List.filter_eq_self]
          intro c hc
          rcases List.mem_cons.mp hc with rfl | hc2
          · decide
          · simp [keptChar, hfrac c hc2]
    rw [priceText, List.filter_append, List.filter_append, List.filter_append,
      hfilpre, hfilpost, hfilsj, hfilfp, List.nil_append, List.append_nil]
  have hnospace : (spacedJoin ((d :: ds) :: gs)
        ++ (if frac = [] then [] else ',' :: frac)).filter (fun c => c.toNat ≠ 32)
      = ((d :: ds) :: gs).flatten ++ (if frac = [] then [] else ',' :: frac) := by
    rw [List.filter_append, filter_nospace_spacedJoin ((d :: ds) :: gs) hdigall]
    congr 1
    cases frac with
    | nil => rfl
    | cons f0 f2 =>
        rw [if_neg (List.cons_ne_nil f0 f2),
          List.filter_eq_self]
        intro c hc
        rcases List.mem_cons.mp hc with rfl | hc2
        · decide
        · exact decide_eq_true (digit_ne_space (hfrac c hc2))
  have hmap : (((d :: ds) :: gs).flatten
        ++ (if frac = [] then [] else ',' :: frac)).map
        (fun c => if c = ',' then '.' else c)
      = ((d :: ds) :: gs).flatten ++ (if frac = [] then [] else '.' :: frac) := by
    rw [List.map_append]
    congr 1
    · exact map_eq_self_of (fun c hc => if_neg (digit_ne_comma (hflatdig c hc)))
    · cases frac with
      | nil => rfl
      | cons f0 f2 =>
          rw [if_neg (List.cons_ne_nil f0 f2),
            List.map_cons, if_pos rfl]
          congr 1
          exact map_eq_self_of (fun c hc => if_neg (digit_ne_comma (hfrac c hc)))
  have hclean3ne : ((d :: ds) :: gs).flatten
      ++ (if frac = [] then [] else '.' :: frac) ≠ [] := by
    intro hemp
    exact hflatne (List.append_eq_nil.mp hemp).1
  have hpf : pyFloat (((d :: ds) :: gs).flatten
        ++ (if frac = [] then [] else '.' :: frac))
      = some (priceVal ((d :: ds) :: gs) frac) := by
    cases frac with
    | nil =>
        rw [if_pos rfl, List.append_nil, pyFloat_digits hflatne hflatdig]
        rfl
    | cons f0 f2 =>
        rw [if_neg (List.cons_ne_nil f0 f2), pyFloat_decimal hflatne hflatdig hfrac]
        rfl
  rw [extract_price_from_text]
  simp only []
  rw [if_neg htext, hstrip, hfilter, hnospace, hmap, if_pos hclean3ne, hpf]

/-- Witness for C3 on the text "Цена:1 234,56₽". -/
theorem price_normalizer_spec_witness :
    extract_price_from_text (priceText "Цена:".data ["1".data, "234".data] "56".data "₽".data)
      = if 10 ≤ priceVal ["1".data, "234".data] "56".data
            ∧ priceVal ["1".data, "234".data] "56".data ≤ 1000000
        then some (priceVal ["1".data, "234".data] "56".data) else none :=
  price_normalizer_spec "Цена:".data "₽".data ["1".data, "234".data] "56".data
    (by decide) (by decide) (by decide) (by decide) (by decide)
